import Mathlib

set_option linter.unusedVariables false

/-!
Verification of the aggregation-pipeline planner core (FieldPath,
DependencyTracker, match-stage dependency visitor, DocumentSourceCursor,
fusion planner) against its natural-language specification.

Strings are modelled as lists of characters; documents, record ids and
opaque filter/sort specifications are modelled as natural numbers. Each
definition is a shallow embedding of the corresponding C++ function,
translated from the source files named in its doc comment.
-/

/-- Error raised by the FieldPath dotted-string constructor
(uassert 15998 in field_path.cpp). -/
inductive PathErr where
  | invalidPath : PathErr
deriving DecidableEq, Repr

/-- Translation of the loop body of FieldPath::FieldPath(const string&)
(field_path.cpp lines 73-102). The accumulator holds the characters of
the segment currently being scanned (the characters between startpos and
the cursor). On a dot, the code asserts the finished segment is non-empty
(uassert 15998) and pushes it; when no dot remains, the remainder of the
string is pushed without any emptiness check. -/
def parseSegmentsAux : List Char → List Char → Except PathErr (List (List Char))
  | [], acc => .ok [acc]
  | c :: cs, acc =>
      if c = '.' then
        if acc.isEmpty then .error .invalidPath
        else
          match parseSegmentsAux cs [] with
          | .error e => .error e
          | .ok segs => .ok (acc :: segs)
      else parseSegmentsAux cs (acc ++ [c])

/-- FieldPath construction from a dotted string
(FieldPath::FieldPath(const string&), field_path.cpp lines 73-102). -/
def parseSegments (cs : List Char) : Except PathErr (List (List Char)) :=
  parseSegmentsAux cs []

/-- Specification-side helper: standard split of a character list on the
dot character, accumulator form. Used to state what "the sequence of
segments" of a dotted string means. -/
def splitOnDotAux : List Char → List Char → List (List Char)
  | [], acc => [acc]
  | c :: cs, acc =>
      if c = '.' then acc :: splitOnDotAux cs []
      else splitOnDotAux cs (acc ++ [c])

/-- Specification-side split of a dotted string into its segments
(maximal runs between dots, leading and trailing runs included). -/
def splitOnDot (cs : List Char) : List (List Char) :=
  splitOnDotAux cs []

/-- Rendering of the non-head segments: each is written preceded by a
dot (the loop in FieldPath::writePath, field_path.cpp lines 139-141). -/
def joinRest (segs : List (List Char)) : List Char :=
  (segs.map (fun s => '.' :: s)).flatten

/-- Translation of FieldPath::writePath (field_path.cpp lines 133-142).
The source reads vFieldName[0] unconditionally; on a zero-segment path
that read is out of bounds, modelled as `none`. -/
def writePath (segs : List (List Char)) (withMarker : Bool) : Option (List Char) :=
  match segs with
  | [] => none
  | s0 :: rest =>
      some ((if withMarker then ['$'] else []) ++ s0 ++ joinRest rest)

/-- Translation of the default constructor FieldPath::FieldPath()
(field_path.cpp lines 61-63): a zero-segment path. -/
def fieldPathEmpty : List (List Char) := []

/-- Translation of FieldPath::FieldPath(const vector&lt;string&gt;&amp;, size_t)
(field_path.cpp lines 65-71): verify(n &lt;= rStrings.size()) then copy the
first n segments. The failed verify is modelled as `none`. -/
def fieldPathOfVector (rStrings : List (List Char)) (n : Nat) :
    Option (List (List Char)) :=
  if n ≤ rStrings.length then some (rStrings.take n) else none

/-- Total join of segments with dots; inverse of `splitOnDot`. -/
def joinSegs (segs : List (List Char)) : List Char :=
  match segs with
  | [] => []
  | s0 :: rest => s0 ++ joinRest rest

/-- DependencyTracker state (dependency_tracker.h lines 215-237): the
open/closed flag plus the dependency map. The boost unordered_map is
modelled as an association list from field path to the identifier of the
most recent stage depending on it; stage references are modelled as
stable indices (spec section 9). -/
structure DependencyTracker where
  openSet : Bool
  map : List (List (List Char) × Nat)
deriving DecidableEq, Repr

/-- Translation of DependencyTracker::DependencyTracker and create
(dependency_tracker.cpp lines 25-32): starts open with an empty map. -/
def DependencyTracker.create : DependencyTracker :=
  { openSet := true, map := [] }

/-- Insert-or-replace on the association list, as map.insert followed by
the last-writer-wins update (dependency_tracker.cpp lines 47-66). -/
def addEntry (m : List (List (List Char) × Nat)) (p : List (List Char))
    (src : Nat) : List (List (List Char) × Nat) :=
  match m with
  | [] => [(p, src)]
  | (q, s0) :: rest =>
      if q = p then (q, src) :: rest else (q, s0) :: addEntry rest p src

/-- Translation of DependencyTracker::addDependency
(dependency_tracker.cpp lines 47-66). -/
def DependencyTracker.addDependency (t : DependencyTracker)
    (p : List (List Char)) (src : Nat) : DependencyTracker :=
  { t with map := addEntry t.map p src }

/-- Erase of a key from the association list (map.erase,
dependency_tracker.cpp lines 68-75). -/
def removeEntry (m : List (List (List Char) × Nat)) (p : List (List Char)) :
    List (List (List Char) × Nat) :=
  match m with
  | [] => []
  | (q, s0) :: rest => if q = p then rest else (q, s0) :: removeEntry rest p

/-- Translation of DependencyTracker::removeDependency
(dependency_tracker.cpp lines 68-75): removing an absent path is a no-op. -/
def DependencyTracker.removeDependency (t : DependencyTracker)
    (p : List (List Char)) : DependencyTracker :=
  { t with map := removeEntry t.map p }

/-- Translation of DependencyTracker::getDependency
(dependency_tracker.cpp lines 77-84). -/
def DependencyTracker.getDependency (t : DependencyTracker)
    (p : List (List Char)) : Option Nat :=
  match t.map.find? (fun e => e.1 = p) with
  | none => none
  | some e => some e.2

/-- Translation of DependencyTracker::setClosedSet
(dependency_tracker.h lines 246-248). -/
def DependencyTracker.setClosedSet (t : DependencyTracker) : DependencyTracker :=
  { t with openSet := false }

/-- Translation of DependencyTracker::isClosedSet
(dependency_tracker.h lines 250-252). -/
def DependencyTracker.isClosedSet (t : DependencyTracker) : Bool :=
  !t.openSet

/-- Translation of DependencyTracker::buildSelectList
(dependency_tracker.cpp lines 126-136): verify(!openSet), modelled as
`none` when the set is still open, then the tracked paths. -/
def DependencyTracker.buildSelectList (t : DependencyTracker) :
    Option (List (List (List Char))) :=
  if t.openSet then none else some (t.map.map (fun e => e.1))

/-- One element of a filter specification object
(a BSONElement as inspected by DocumentSourceMatch::visitDependencies):
either a non-array value (treated opaquely, modelled as an integer) or
an array of sub-objects. An object is a list of such named elements. -/
inductive MEntry where
  | plainV (name : List Char) (value : Int) : MEntry
  | arrV (name : List Char) (children : List (List MEntry)) : MEntry
deriving Repr

/-- The conjunction grouping key "$and". -/
def andKey : List Char := '$' :: 'a' :: 'n' :: 'd' :: []

/-- The disjunction grouping key "$or". -/
def orKey : List Char := '$' :: 'o' :: 'r' :: []

mutual

/-- Translation of DocumentSourceMatch::visitDependencies
(document_source_match.cpp lines 89-110): for each element whose name is
not "$or" or "$and", register the name as a dependency; for a grouping
key, verify the value is an array (a grouping key with a non-array value
trips the verify, modelled as `none`) and recurse into each operand
object. -/
def visitDependencies : List MEntry → Option (List (List Char))
  | [] => some []
  | .plainV name _ :: rest =>
      if name ≠ orKey ∧ name ≠ andKey then
        match visitDependencies rest with
        | none => none
        | some ds => some (name :: ds)
      else none
  | .arrV name children :: rest =>
      if name ≠ orKey ∧ name ≠ andKey then
        match visitDependencies rest with
        | none => none
        | some ds => some (name :: ds)
      else
        match visitOperands children with
        | none => none
        | some ds1 =>
            match visitDependencies rest with
            | none => none
            | some ds2 => some (ds1 ++ ds2)

/-- The inner loop over the operand objects of a grouping key
(document_source_match.cpp lines 102-107). -/
def visitOperands : List (List MEntry) → Option (List (List Char))
  | [] => some []
  | o :: os =>
      match visitDependencies o with
      | none => none
      | some ds1 =>
          match visitOperands os with
          | none => none
          | some ds2 => some (ds1 ++ ds2)

end

mutual

/-- Specification-side description of the visitor (claim C8): each key
that is not a grouping key contributes itself as a dependency; a
grouping key contributes the dependencies of its child clauses. -/
def specDeps : List MEntry → List (List Char)
  | [] => []
  | .plainV name _ :: rest =>
      if name = orKey ∨ name = andKey then specDeps rest
      else name :: specDeps rest
  | .arrV name children :: rest =>
      if name = orKey ∨ name = andKey then specOperands children ++ specDeps rest
      else name :: specDeps rest

/-- Specification-side recursion into the child clauses. -/
def specOperands : List (List MEntry) → List (List Char)
  | [] => []
  | o :: os => specDeps o ++ specOperands os

end

mutual

/-- Well-formedness of a filter specification: every grouping key holds
an array of sub-specifications (never a plain value), recursively. -/
def wfSpec : List MEntry → Bool
  | [] => true
  | .plainV name _ :: rest =>
      decide (name ≠ orKey ∧ name ≠ andKey) && wfSpec rest
  | .arrV _ children :: rest => wfOperands children && wfSpec rest

/-- Well-formedness of a list of child clauses. -/
def wfOperands : List (List MEntry) → Bool
  | [] => true
  | o :: os => wfSpec o && wfOperands os

end

/-- Operational errors surfaced during cursor iteration: Interrupted
(cooperative cancellation observed by the stage base class) and
CursorInvalidated (uassert 16028, collection or database disappeared
when the cursor yielded). -/
inductive CursorErr where
  | interrupted : CursorErr
  | cursorInvalidated : CursorErr
deriving DecidableEq, Repr

/-- One position of the physical scan: the record identifier
(Cursor::currLoc) and the document stored there (Cursor::current).
Documents are opaque, modelled as naturals. -/
structure ScanRec where
  rid : Nat
  doc : Nat
deriving DecidableEq, Repr

/-- State of a DocumentSourceCursor together with its wrapped physical
scan: the remaining scan positions (pCursor, whose ok() is "positions
not empty"), the optional residual matcher attached to the scan
(pCursor->matcher()), the outcomes of the upcoming yields (an empty
list means every further yield succeeds), the record ids already
returned in this lifetime (the getsetdup set), the current document
snapshot (pCurrent), and the operation's cooperative interruption
flag. -/
structure Cursor where
  positions : List ScanRec
  matcher : Option (Nat → Bool)
  yields : List Bool
  seen : List Nat
  current : Option Nat
  interrupted : Bool

/-- Residual-predicate test: a scan without a matcher accepts every
document (document_source_cursor.cpp lines 85-86). -/
def matcherAccepts (m : Option (Nat → Bool)) (d : Nat) : Bool :=
  match m with
  | none => true
  | some p => p d

/-- The matcher test applied to the scan's current position
(document_source_cursor.cpp lines 84-86). -/
def currentMatches (c : Cursor) (r : ScanRec) : Bool :=
  matcherAccepts c.matcher r.doc

/-- Translation of DocumentSourceCursor::advanceAndYield
(document_source_cursor.cpp lines 65-79): advance the scan one position,
then yield (ClientCursor::yieldSometimes); failed reacquisition raises
uassert 16028, modelled as the CursorInvalidated error. The pending
yield outcome is the head of yields. -/
def advanceAndYield (c : Cursor) : Except CursorErr Cursor :=
  let cadv : Cursor := { c with positions := c.positions.tail }
  match cadv.yields with
  | [] => .ok cadv
  | b :: rest =>
      if b then .ok { cadv with yields := rest }
      else .error .cursorInvalidated

/-- Translation of DocumentSourceCursor::findNext
(document_source_cursor.cpp lines 81-113): while the scan has positions,
a position qualifies when it passes the residual matcher (or there is
none) and getsetdup reports its record id as not yet returned (marking
it returned in the same call); a qualifying position's document becomes
current and the scan advances and yields; a non-qualifying position is
skipped by the same advance-and-yield; when positions run out, the
current snapshot is cleared. -/
def findNext (c : Cursor) : Except CursorErr Cursor :=
  match hpos : c.positions with
  | [] => .ok { c with current := none }
  | r :: _ =>
      if currentMatches c r = true ∧ r.rid ∉ c.seen then
        advanceAndYield { c with current := some r.doc, seen := r.rid :: c.seen }
      else
        match hadv : advanceAndYield c with
        | .error e => .error e
        | .ok cnext => findNext cnext
termination_by c.positions.length
decreasing_by
  have hpn : cnext.positions = c.positions.tail := by
    simp only [advanceAndYield] at hadv
    rcases hy : c.yields with _ | ⟨b, ys⟩
    · simp [hy] at hadv
      rw [← hadv]
    · cases b
      · simp [hy] at hadv
      · simp [hy] at hadv
        rw [← hadv]
  rw [hpn, hpos]
  simp

/-- Modelled from the spec: the interruption checkpoint of
DocumentSource::advance in the stage base class, which is not among the
repository files given (document_source_cursor.cpp line 47 calls it with
the comment "check for interrupts"). Per spec section 4.4, advance
checks a cooperative interruption flag first and, if it is set, fails
with Interrupted without further work. -/
def checkInterrupts (c : Cursor) : Except CursorErr Unit :=
  if c.interrupted then .error .interrupted else .ok ()

/-- Translation of DocumentSourceCursor::eof
(document_source_cursor.cpp lines 38-44): perform the first fetch if
nothing is current yet, then report whether a current document exists. -/
def eofStep (c : Cursor) : Except CursorErr (Bool × Cursor) :=
  match (if c.current.isNone then findNext c else .ok c) with
  | .error e => .error e
  | .ok c1 => .ok (c1.current.isNone, c1)

/-- Translation of DocumentSourceCursor::advance
(document_source_cursor.cpp lines 46-55): check for interrupts first,
perform the first fetch if nothing is current yet, then fetch the next
document; returns whether a document is now current. -/
def advanceStep (c : Cursor) : Except CursorErr (Bool × Cursor) :=
  match checkInterrupts c with
  | .error e => .error e
  | .ok _ =>
      match (if c.current.isNone then findNext c else .ok c) with
      | .error e => .error e
      | .ok c1 =>
          match findNext c1 with
          | .error e => .error e
          | .ok c2 => .ok (c2.current.isSome, c2)

/-- Translation of DocumentSourceCursor::getCurrent
(document_source_cursor.cpp lines 57-63): perform the first fetch if
nothing is current yet, then return the current snapshot. -/
def getCurrentStep (c : Cursor) : Except CursorErr (Option Nat × Cursor) :=
  match (if c.current.isNone then findNext c else .ok c) with
  | .error e => .error e
  | .ok c1 => .ok (c1.current, c1)

/-- Modelled from the spec: the standard iteration contract of spec
section 6 by which the downstream pipeline drives the cursor - while not
eof, read the current document and advance. The fuel argument bounds the
number of loop iterations so the driver is structurally recursive;
theorems use any fuel exceeding the scan length. -/
def collectFuel : Nat → Cursor → Except CursorErr (List Nat)
  | 0, _ => .ok []
  | fuel + 1, c =>
      match eofStep c with
      | .error e => .error e
      | .ok (true, _) => .ok []
      | .ok (false, c1) =>
          match getCurrentStep c1 with
          | .error e => .error e
          | .ok (none, _) => .ok []
          | .ok (some d, c2) =>
              match advanceStep c2 with
              | .error e => .error e
              | .ok (_, c3) =>
                  match collectFuel fuel c3 with
                  | .error e => .error e
                  | .ok ds => .ok (d :: ds)

/-- Specification-side description of the records claim C1 says the
cursor surfaces: those that satisfy the residual predicate and whose
record identifier has not already been returned, in scan order. -/
def dedupFilter (m : Option (Nat → Bool)) : List ScanRec → List Nat → List ScanRec
  | [], _ => []
  | r :: rest, seen =>
      if matcherAccepts m r.doc = true ∧ r.rid ∉ seen then
        r :: dedupFilter m rest (r.rid :: seen)
      else dedupFilter m rest seen

/-- A freshly constructed cursor over a scan (DocumentSourceCursor
constructor, document_source_cursor.cpp lines 152-163): no current
document, nothing returned yet, every yield ahead succeeding, not
interrupted. -/
def initCursor (posns : List ScanRec) (m : Option (Nat → Bool)) : Cursor :=
  { positions := posns, matcher := m, yields := [], seen := [],
    current := none, interrupted := false }

/-- A pipeline stage as the fusion planner distinguishes them
(pipeline_d.cpp: Pipeline::getInitialQuery's leading-filter test and the
dynamic_cast to DocumentSourceSort): a filter-capable match stage whose
predicate is natively representable, a sort-capable stage with a
representable key, or any other stage. Predicates and sort keys are
opaque specifications, modelled as naturals. -/
inductive Stage where
  | matchStage (query : Nat) : Stage
  | sortStage (key : Nat) : Stage
  | otherStage (tag : Nat) : Stage
deriving DecidableEq, Repr

/-- Outcome of PipelineD::prepareCursorSource as far as the stage list
and scan acquisition are concerned: the remaining pipeline, the
extracted query (none stands for the unconstrained query built when no
match was extracted), the sort key attached to the cursor exactly when a
sorted scan was fused (initSort), the sequence of getCursor acquisition
attempts as (query, sort) pairs in call order, and whether the final
attempt produced a scan. -/
structure PlanResult where
  remaining : List Stage
  query : Option Nat
  sortFused : Option Nat
  attempts : List (Option Nat × Option Nat)
  cursorAcquired : Bool
deriving DecidableEq, Repr

/-- Modelled from the spec: Pipeline::getInitialQuery (called at
pipeline_d.cpp line 66; its implementation is not among the repository
files given). Per spec section 4.5 step 2, if the first stage is a
filter-capable stage whose predicate is representable as a native filter
specification, that specification is extracted. -/
def getInitialQuery : List Stage → Option Nat
  | .matchStage q :: _ => some q
  | _ => none

/-- Translation of PipelineD::prepareCursorSource (pipeline_d.cpp
lines 29-220) in its stage-list and scan-acquisition behavior: extract a
leading match into the query and erase it from the front (lines 64-73);
if the new front is a sort stage, try to acquire a cursor with both
query and sort, erasing the sort from the front on success
(lines 126-186); if no cursor yet, try with the query alone
(lines 188-195). The dependency-analysis loop (lines 50-62) only reads
the stage list through manageDependencies and cannot mutate it, and the
select-list, provenance and keep-alive plumbing do not touch the list;
both are omitted. Scan acquisition (NamespaceDetailsTransient::getCursor,
an external capability per spec section 6) is the oracle parameter
acquire; when even the unsorted attempt finds nothing, cursorAcquired is
false (the code would then trip the verify in
DocumentSourceCursor::create). -/
def prepareCursorSource (acquire : Option Nat → Option Nat → Bool)
    (stages : List Stage) : PlanResult :=
  let initQuery := getInitialQuery stages
  let stages1 := match initQuery with
                 | some _ => stages.tail
                 | none => stages
  let pSort := match stages1 with
               | .sortStage k :: _ => some k
               | _ => none
  match pSort with
  | some k =>
      if acquire initQuery (some k) then
        { remaining := stages1.tail, query := initQuery, sortFused := some k,
          attempts := (initQuery, some k) :: [], cursorAcquired := true }
      else
        { remaining := stages1, query := initQuery, sortFused := none,
          attempts := (initQuery, some k) :: (initQuery, none) :: [],
          cursorAcquired := acquire initQuery none }
  | none =>
      { remaining := stages1, query := initQuery, sortFused := none,
        attempts := (initQuery, none) :: [],
        cursorAcquired := acquire initQuery none }

/-- Specification-side step 2 of the fusion algorithm (spec
section 4.5): extract a representable leading filter and remove it from
the front. -/
def specFusionFilter : List Stage → (Option Nat × List Stage)
  | .matchStage q :: rest => (some q, rest)
  | s => (none, s)

/-- Specification-side steps 2-4 of the fusion algorithm (spec
section 4.5): the extracted filter, the fused sort key (present exactly
when a sorted scan was acquired), and the remaining stage list. -/
def specFusion (acquire : Option Nat → Option Nat → Bool)
    (stages : List Stage) : Option Nat × Option Nat × List Stage :=
  match specFusionFilter stages with
  | (filt, .sortStage k :: rest) =>
      if acquire filt (some k) then (filt, some k, rest)
      else (filt, none, .sortStage k :: rest)
  | (filt, s1) => (filt, none, s1)

/-- Specification-side acquisition attempts (spec section 4.5
steps 3-4): when the post-filter front is a sort stage, first a sorted
attempt, followed by a filter-only attempt unless the sorted one
succeeded; otherwise a filter-only attempt directly. -/
def specAttempts (acquire : Option Nat → Option Nat → Bool)
    (stages : List Stage) : List (Option Nat × Option Nat) :=
  match specFusionFilter stages with
  | (filt, .sortStage k :: _) =>
      if acquire filt (some k) then (filt, some k) :: []
      else (filt, some k) :: (filt, none) :: []
  | (filt, _) => (filt, none) :: []

theorem splitOnDotAux_ne_nil (cs acc : List Char) : splitOnDotAux cs acc ≠ [] := by
  induction cs generalizing acc with
  | nil => simp [splitOnDotAux]
  | cons c cs ih =>
      by_cases h : c = '.'
      · simp [splitOnDotAux, h]
      · simpa [splitOnDotAux, h] using ih (acc ++ [c])

theorem joinRest_cons (s : List Char) (rest : List (List Char)) :
    joinRest (s :: rest) = '.' :: (s ++ joinRest rest) := by
  simp [joinRest]

theorem joinSegs_splitOnDotAux (cs acc : List Char) :
    joinSegs (splitOnDotAux cs acc) = acc ++ cs := by
  induction cs generalizing acc with
  | nil => simp [splitOnDotAux, joinSegs, joinRest]
  | cons c cs ih =>
      by_cases h : c = '.'
      · subst h
        have hne := splitOnDotAux_ne_nil cs []
        rcases hsplit : splitOnDotAux cs [] with _ | ⟨s0, rest⟩
        · exact absurd hsplit hne
        · have ih0 := ih []
          rw [hsplit] at ih0
          simp only [joinSegs, List.nil_append] at ih0
          simp [splitOnDotAux, hsplit, joinSegs, joinRest_cons, ih0]
      · have ih0 := ih (acc ++ [c])
        simp only [splitOnDotAux, h, if_false, joinSegs] at ih0 ⊢
        rw [ih0, List.append_assoc]
        rfl

theorem parseSegmentsAux_eq (cs acc : List Char) :
    parseSegmentsAux cs acc =
      if ((splitOnDotAux cs acc).dropLast).any List.isEmpty then
        .error PathErr.invalidPath
      else .ok (splitOnDotAux cs acc) := by
  induction cs generalizing acc with
  | nil => simp [parseSegmentsAux, splitOnDotAux]
  | cons c cs ih =>
      by_cases h : c = '.'
      · have hne := splitOnDotAux_ne_nil cs []
        rcases hsplit : splitOnDotAux cs [] with _ | ⟨s0, rest⟩
        · exact absurd hsplit hne
        · have ih0 := ih []
          rw [hsplit] at ih0
          by_cases hacc : acc.isEmpty
          · simp [parseSegmentsAux, splitOnDotAux, h, hsplit, hacc,
              List.dropLast_cons₂, List.isEmpty_iff.mp hacc]
          · simp only [parseSegmentsAux, splitOnDotAux, h, if_true, hacc,
              if_false, hsplit, List.dropLast_cons₂, List.any_cons, ih0]
            have hacc2 : acc.isEmpty = false := by
              simpa using hacc
            by_cases hrest : ((s0 :: rest).dropLast).any List.isEmpty
            · simp [hrest, hacc2]
            · simp [hrest, hacc2]
      · have ih0 := ih (acc ++ [c])
        simp only [parseSegmentsAux, splitOnDotAux, h, if_false]
        exact ih0

/-- C3 counterexample: the dotted string "a." has an empty trailing
segment, yet FieldPath construction succeeds, producing segments
["a", ""]. The uassert 15998 only guards segments that end at a dot; the
remainder after the last dot is pushed unchecked (field_path.cpp
lines 84-88). -/
theorem parseSegments_accepts_trailing_empty :
    splitOnDot ('a' :: '.' :: []) = ('a' :: []) :: [] :: [] ∧
    parseSegments ('a' :: '.' :: []) = .ok (('a' :: []) :: [] :: []) :=
  ⟨rfl, rfl⟩

/-- C3 (amended): FieldPath construction from a dotted string fails with
InvalidPath exactly when some segment other than the last is empty, and
otherwise succeeds producing exactly the sequence of segments; the final
segment is never checked, so a trailing empty segment (and the empty
string itself) is accepted. -/
theorem parseSegments_spec (cs : List Char) :
    parseSegments cs =
      if ((splitOnDot cs).dropLast).any List.isEmpty then
        .error PathErr.invalidPath
      else .ok (splitOnDot cs) :=
  parseSegmentsAux_eq cs []

/-- C9: for any dotted path string all of whose segments are non-empty,
constructing a FieldPath from it and rendering it without the prefix
marker (writePath with marker false) reproduces the original string. -/
theorem fieldPath_roundtrip (cs : List Char)
    (h : ∀ s ∈ splitOnDot cs, s ≠ []) :
    parseSegments cs = .ok (splitOnDot cs) ∧
    writePath (splitOnDot cs) false = some cs := by
  have hany : ((splitOnDot cs).dropLast).any List.isEmpty = false := by
    rw [List.any_eq_false]
    intro s hs
    have hs2 : s ∈ splitOnDot cs :=
      (List.dropLast_sublist (splitOnDot cs)).subset hs
    simpa [List.isEmpty_iff] using h s hs2
  constructor
  · have heq := parseSegmentsAux_eq cs []
    simp only [splitOnDot] at hany
    rw [hany] at heq
    simpa [parseSegments, splitOnDot] using heq
  · have hne := splitOnDotAux_ne_nil cs []
    have hjoin := joinSegs_splitOnDotAux cs []
    rcases hsplit : splitOnDotAux cs [] with _ | ⟨s0, rest⟩
    · exact absurd hsplit hne
    · rw [hsplit] at hjoin
      simp only [joinSegs, List.nil_append] at hjoin
      simp [splitOnDot, writePath, hsplit, hjoin]

/-- Witness for C9 at the concrete string "a.b". -/
theorem fieldPath_roundtrip_witness :
    parseSegments ('a' :: '.' :: 'b' :: []) =
      .ok (splitOnDot ('a' :: '.' :: 'b' :: [])) ∧
    writePath (splitOnDot ('a' :: '.' :: 'b' :: [])) false =
      some ('a' :: '.' :: 'b' :: []) :=
  fieldPath_roundtrip ('a' :: '.' :: 'b' :: []) (by decide)

/-- C10: rendering a FieldPath requires at least one segment. A
zero-segment path is reachable through the public interface (the default
constructor `fieldPathEmpty`, or the vector constructor with n = 0), and
rendering it reads segment index 0 out of bounds (modelled as `none`);
every path with at least one segment renders totally. -/
theorem writePath_needs_segment :
    (∀ m : Bool, writePath fieldPathEmpty m = none) ∧
    (∀ segs : List (List Char), fieldPathOfVector segs 0 = some fieldPathEmpty) ∧
    (∀ segs : List (List Char), ∀ m : Bool, segs ≠ [] →
      (writePath segs m).isSome = true) := by
  refine ⟨fun m => rfl, fun segs => by simp [fieldPathOfVector, fieldPathEmpty], ?_⟩
  intro segs m h
  rcases segs with _ | ⟨s0, rest⟩
  · exact absurd rfl h
  · simp [writePath]

/-- Witness for C10 at a concrete one-segment path. -/
theorem writePath_needs_segment_witness :
    (writePath (('a' :: []) :: []) false).isSome = true :=
  writePath_needs_segment.2.2 (('a' :: []) :: []) false (by decide)

/-- C7: the closed flag is monotonic. The tracker starts open,
setClosedSet closes it, repeated calls are no-ops, addDependency and
removeDependency never change the flag (and getDependency and
buildSelectList are pure reads), and isClosedSet reflects the flag. -/
theorem dependencyTracker_closed_monotonic :
    DependencyTracker.create.isClosedSet = false ∧
    (∀ t : DependencyTracker, t.setClosedSet.isClosedSet = true) ∧
    (∀ t : DependencyTracker, t.setClosedSet.setClosedSet = t.setClosedSet) ∧
    (∀ (t : DependencyTracker) (p : List (List Char)) (s : Nat),
      (t.addDependency p s).isClosedSet = t.isClosedSet) ∧
    (∀ (t : DependencyTracker) (p : List (List Char)),
      (t.removeDependency p).isClosedSet = t.isClosedSet) ∧
    (∀ t : DependencyTracker, t.isClosedSet = !t.openSet) :=
  ⟨rfl, fun _ => rfl, fun _ => rfl, fun _ _ _ => rfl, fun _ _ => rfl,
    fun _ => rfl⟩

mutual

theorem visitDeps_eq_spec :
    ∀ l : List MEntry, wfSpec l = true → visitDependencies l = some (specDeps l)
  | [], _ => by simp [visitDependencies, specDeps]
  | .plainV name v :: rest, h => by
      have hh : (name ≠ orKey ∧ name ≠ andKey) ∧ wfSpec rest = true := by
        simpa [wfSpec, Bool.and_eq_true] using h
      have ih := visitDeps_eq_spec rest hh.2
      have hn : ¬(name = orKey ∨ name = andKey) := by
        rcases hh.1 with ⟨h1, h2⟩
        rintro (h3 | h3)
        · exact h1 h3
        · exact h2 h3
      simp [visitDependencies, specDeps, hh.1, hn, ih]
  | .arrV name children :: rest, h => by
      have hh : wfOperands children = true ∧ wfSpec rest = true := by
        simpa [wfSpec, Bool.and_eq_true] using h
      have ih1 := visitOps_eq_spec children hh.1
      have ih2 := visitDeps_eq_spec rest hh.2
      by_cases hg : name = orKey ∨ name = andKey
      · have hn : ¬(name ≠ orKey ∧ name ≠ andKey) := by tauto
        simp [visitDependencies, specDeps, hg, hn, ih1, ih2]
      · have hn : name ≠ orKey ∧ name ≠ andKey := by tauto
        simp [visitDependencies, specDeps, hg, hn, ih2]

theorem visitOps_eq_spec :
    ∀ os : List (List MEntry), wfOperands os = true →
      visitOperands os = some (specOperands os)
  | [], _ => by simp [visitOperands, specOperands]
  | o :: os, h => by
      have hh : wfSpec o = true ∧ wfOperands os = true := by
        simpa [wfOperands, Bool.and_eq_true] using h
      have ih1 := visitDeps_eq_spec o hh.1
      have ih2 := visitOps_eq_spec os hh.2
      simp [visitOperands, specOperands, ih1, ih2]

end

mutual

theorem specDeps_no_grouping :
    ∀ l : List MEntry, orKey ∉ specDeps l ∧ andKey ∉ specDeps l
  | [] => by simp [specDeps]
  | .plainV name v :: rest => by
      have ih := specDeps_no_grouping rest
      by_cases hg : name = orKey ∨ name = andKey
      · simpa [specDeps, hg] using ih
      · have hn : name ≠ orKey ∧ name ≠ andKey := by tauto
        simp only [specDeps, hg, if_false, List.mem_cons]
        refine ⟨?_, ?_⟩
        · rintro (h | h)
          · exact hn.1 h.symm
          · exact ih.1 h
        · rintro (h | h)
          · exact hn.2 h.symm
          · exact ih.2 h
  | .arrV name children :: rest => by
      have ih := specDeps_no_grouping rest
      by_cases hg : name = orKey ∨ name = andKey
      · have ihc := specOps_no_grouping children
        simp only [specDeps, hg, if_true, List.mem_append]
        refine ⟨?_, ?_⟩
        · rintro (h | h)
          · exact ihc.1 h
          · exact ih.1 h
        · rintro (h | h)
          · exact ihc.2 h
          · exact ih.2 h
      · have hn : name ≠ orKey ∧ name ≠ andKey := by tauto
        simp only [specDeps, hg, if_false, List.mem_cons]
        refine ⟨?_, ?_⟩
        · rintro (h | h)
          · exact hn.1 h.symm
          · exact ih.1 h
        · rintro (h | h)
          · exact hn.2 h.symm
          · exact ih.2 h

theorem specOps_no_grouping :
    ∀ os : List (List MEntry),
      orKey ∉ specOperands os ∧ andKey ∉ specOperands os
  | [] => by simp [specOperands]
  | o :: os => by
      have ih1 := specDeps_no_grouping o
      have ih2 := specOps_no_grouping os
      simp only [specOperands, List.mem_append]
      refine ⟨?_, ?_⟩
      · rintro (h | h)
        · exact ih1.1 h
        · exact ih2.1 h
      · rintro (h | h)
        · exact ih1.2 h
        · exact ih2.2 h

end

/-- C8: for every well-formed filter specification tree, the match-stage
dependency visitor registers a dependency on exactly each key that is
not one of the two logical-grouping keys, recursing into each child
clause of a grouping key's array; the grouping keys themselves are never
registered as dependencies. -/
theorem match_dependencies_spec (l : List MEntry) (h : wfSpec l = true) :
    visitDependencies l = some (specDeps l) ∧
    orKey ∉ specDeps l ∧ andKey ∉ specDeps l :=
  ⟨visitDeps_eq_spec l h, (specDeps_no_grouping l).1, (specDeps_no_grouping l).2⟩

/-- Witness for C8 at the specification example filter
{or: [{a: 1}, {b: 2}]}. -/
theorem match_dependencies_spec_witness :
    visitDependencies
        ((.arrV orKey (((.plainV ('a' :: []) 1) :: []) ::
          ((.plainV ('b' :: []) 2) :: []) :: [])) :: []) =
      some (specDeps ((.arrV orKey (((.plainV ('a' :: []) 1) :: []) ::
          ((.plainV ('b' :: []) 2) :: []) :: [])) :: [])) ∧
    orKey ∉ specDeps ((.arrV orKey (((.plainV ('a' :: []) 1) :: []) ::
          ((.plainV ('b' :: []) 2) :: []) :: [])) :: []) ∧
    andKey ∉ specDeps ((.arrV orKey (((.plainV ('a' :: []) 1) :: []) ::
          ((.plainV ('b' :: []) 2) :: []) :: [])) :: []) :=
  match_dependencies_spec _ (by simp [wfSpec, wfOperands, orKey, andKey])

theorem findNext_eq_nil (c : Cursor) (h : c.positions = []) :
    findNext c = .ok { c with current := none } := by
  rw [findNext.eq_def, h]


theorem findNext_cons_hit (c : Cursor) (r : ScanRec) (rest : List ScanRec)
    (h : c.positions = r :: rest)
    (hc : currentMatches c r = true ∧ r.rid ∉ c.seen) :
    findNext c =
      advanceAndYield { c with current := some r.doc, seen := r.rid :: c.seen } := by
  rw [findNext.eq_def, h]
  simp [hc, h]


theorem findNext_cons_skip_err (c : Cursor) (r : ScanRec) (rest : List ScanRec)
    (e : CursorErr) (h : c.positions = r :: rest)
    (hc : ¬(currentMatches c r = true ∧ r.rid ∉ c.seen))
    (hadv : advanceAndYield c = .error e) :
    findNext c = .error e := by
  rw [findNext.eq_def, h]
  dsimp only
  rw [if_neg hc]
  split <;> rename_i x heq
  · rw [hadv] at heq
    cases heq
    rfl
  · rw [hadv] at heq
    cases heq

theorem findNext_cons_skip_ok (c : Cursor) (r : ScanRec) (rest : List ScanRec)
    (cnext : Cursor) (h : c.positions = r :: rest)
    (hc : ¬(currentMatches c r = true ∧ r.rid ∉ c.seen))
    (hadv : advanceAndYield c = .ok cnext) :
    findNext c = findNext cnext := by
  rw [findNext.eq_def, h]
  dsimp only
  rw [if_neg hc]
  split <;> rename_i x heq
  · rw [hadv] at heq
    cases heq
  · rw [hadv] at heq
    cases heq
    rfl

theorem advanceAndYield_nil (c : Cursor) (hy : c.yields = []) :
    advanceAndYield c = .ok { c with positions := c.positions.tail } := by
  simp [advanceAndYield, hy]

theorem findNext_char (m : Option (Nat → Bool)) (intr : Bool) :
    ∀ posns : List ScanRec, ∀ seen : List Nat, ∀ cur : Option Nat,
      (dedupFilter m posns seen = [] →
        findNext ⟨posns, m, [], seen, cur, intr⟩ =
          .ok ⟨[], m, [], seen, none, intr⟩) ∧
      (∀ r ds, dedupFilter m posns seen = r :: ds →
        ∃ posns2, findNext ⟨posns, m, [], seen, cur, intr⟩ =
            .ok ⟨posns2, m, [], r.rid :: seen, some r.doc, intr⟩ ∧
          dedupFilter m posns2 (r.rid :: seen) = ds ∧
          posns2.length < posns.length) := by
  intro posns
  induction posns with
  | nil =>
      intro seen cur
      constructor
      · intro _
        exact findNext_eq_nil _ rfl
      · intro r ds hded
        simp [dedupFilter] at hded
  | cons p rest ih =>
      intro seen cur
      by_cases hc : matcherAccepts m p.doc = true ∧ p.rid ∉ seen
      · have hded : dedupFilter m (p :: rest) seen =
            p :: dedupFilter m rest (p.rid :: seen) := by
          simp [dedupFilter, hc]
        have hcm : currentMatches ⟨p :: rest, m, [], seen, cur, intr⟩ p = true ∧
            p.rid ∉ (⟨p :: rest, m, [], seen, cur, intr⟩ : Cursor).seen := hc
        have hfn := findNext_cons_hit ⟨p :: rest, m, [], seen, cur, intr⟩ p rest rfl hcm
        rw [advanceAndYield_nil _ rfl] at hfn
        constructor
        · intro h0
          rw [hded] at h0
          cases h0
        · intro r ds h0
          rw [hded] at h0
          injection h0 with h1 h2
          subst h1
          subst h2
          exact ⟨rest, hfn, rfl, by simp⟩
      · have hded : dedupFilter m (p :: rest) seen = dedupFilter m rest seen := by
          simp [dedupFilter, hc]
        have hcm : ¬(currentMatches ⟨p :: rest, m, [], seen, cur, intr⟩ p = true ∧
            p.rid ∉ (⟨p :: rest, m, [], seen, cur, intr⟩ : Cursor).seen) := hc
        have hadv := advanceAndYield_nil ⟨p :: rest, m, [], seen, cur, intr⟩ rfl
        have hfn := findNext_cons_skip_ok ⟨p :: rest, m, [], seen, cur, intr⟩ p rest
          _ rfl hcm hadv
        constructor
        · intro h0
          rw [hded] at h0
          rw [hfn]
          exact (ih seen cur).1 h0
        · intro r ds h0
          rw [hded] at h0
          obtain ⟨posns2, he, hd2, hl⟩ := (ih seen cur).2 r ds h0
          exact ⟨posns2, by rw [hfn]; exact he, hd2, Nat.lt_succ_of_lt hl⟩

theorem collectFuel_nil (n : Nat) (m : Option (Nat → Bool)) (seen : List Nat)
    (intr : Bool) :
    collectFuel n ⟨[], m, [], seen, none, intr⟩ = .ok [] := by
  cases n with
  | zero => rfl
  | succ n =>
      have hfn := findNext_eq_nil (⟨[], m, [], seen, none, intr⟩ : Cursor) rfl
      simp [collectFuel, eofStep, hfn]

theorem collect_char (m : Option (Nat → Bool)) :
    ∀ fuel : Nat, ∀ posns : List ScanRec, ∀ seen : List Nat,
      (posns.length < fuel →
        collectFuel fuel ⟨posns, m, [], seen, none, false⟩ =
          .ok ((dedupFilter m posns seen).map ScanRec.doc)) ∧
      (∀ d, posns.length < fuel →
        collectFuel fuel ⟨posns, m, [], seen, some d, false⟩ =
          .ok (d :: (dedupFilter m posns seen).map ScanRec.doc)) := by
  intro fuel
  induction fuel with
  | zero =>
      intro posns seen
      constructor
      · intro h
        exact absurd h (Nat.not_lt_zero _)
      · intro d h
        exact absurd h (Nat.not_lt_zero _)
  | succ n ih =>
      intro posns seen
      constructor
      · intro hlt
        rcases hd : dedupFilter m posns seen with _ | ⟨r, ds⟩
        · have hfn := (findNext_char m false posns seen none).1 hd
          simp [collectFuel, eofStep, hfn, dedupFilter]
        · obtain ⟨posns2, hfn, hd2, hlen⟩ :=
            (findNext_char m false posns seen none).2 r ds hd
          have heof : eofStep ⟨posns, m, [], seen, none, false⟩ =
              .ok (false, ⟨posns2, m, [], r.rid :: seen, some r.doc, false⟩) := by
            simp [eofStep, hfn]
          have hget : getCurrentStep
              ⟨posns2, m, [], r.rid :: seen, some r.doc, false⟩ =
              .ok (some r.doc,
                ⟨posns2, m, [], r.rid :: seen, some r.doc, false⟩) := by
            simp [getCurrentStep]
          rcases hds : ds with _ | ⟨r2, ds2⟩
          · rw [hds] at hd2
            have hfn2 := (findNext_char m false posns2 (r.rid :: seen)
              (some r.doc)).1 hd2
            have hadv : advanceStep
                ⟨posns2, m, [], r.rid :: seen, some r.doc, false⟩ =
                .ok (false, ⟨[], m, [], r.rid :: seen, none, false⟩) := by
              simp [advanceStep, checkInterrupts, hfn2]
            simp [collectFuel, heof, hget, hadv, collectFuel_nil]
          · rw [hds] at hd2
            have hfn2 := (findNext_char m false posns2 (r.rid :: seen)
              (some r.doc)).2 r2 ds2 hd2
            obtain ⟨posns3, hfn3, hd3, hlen3⟩ := hfn2
            have hadv : advanceStep
                ⟨posns2, m, [], r.rid :: seen, some r.doc, false⟩ =
                .ok (true,
                  ⟨posns3, m, [], r2.rid :: r.rid :: seen, some r2.doc, false⟩) := by
              simp [advanceStep, checkInterrupts, hfn3]
            have hrec := (ih posns3 (r2.rid :: r.rid :: seen)).2 r2.doc
              (by omega)
            rw [hd3] at hrec
            simp [collectFuel, heof, hget, hadv, hrec]
      · intro d hlt
        have heof : eofStep ⟨posns, m, [], seen, some d, false⟩ =
            .ok (false, ⟨posns, m, [], seen, some d, false⟩) := by
          simp [eofStep]
        have hget : getCurrentStep ⟨posns, m, [], seen, some d, false⟩ =
            .ok (some d, ⟨posns, m, [], seen, some d, false⟩) := by
          simp [getCurrentStep]
        rcases hd : dedupFilter m posns seen with _ | ⟨r, ds⟩
        · have hfn := (findNext_char m false posns seen (some d)).1 hd
          have hadv : advanceStep ⟨posns, m, [], seen, some d, false⟩ =
              .ok (false, ⟨[], m, [], seen, none, false⟩) := by
            simp [advanceStep, checkInterrupts, hfn]
          simp [collectFuel, heof, hget, hadv, collectFuel_nil]
        · obtain ⟨posns2, hfn, hd2, hlen⟩ :=
            (findNext_char m false posns seen (some d)).2 r ds hd
          have hadv : advanceStep ⟨posns, m, [], seen, some d, false⟩ =
              .ok (true, ⟨posns2, m, [], r.rid :: seen, some r.doc, false⟩) := by
            simp [advanceStep, checkInterrupts, hfn]
          have hrec := (ih posns2 (r.rid :: seen)).2 r.doc (by omega)
          rw [hd2] at hrec
          simp [collectFuel, heof, hget, hadv, hrec]

/-- C1: for every physical scan and every optional residual predicate,
driving the cursor through the standard eof/getCurrent/advance iteration
surfaces exactly the records that satisfy the residual predicate and
whose record identifier has not already been returned in this cursor's
lifetime, each exactly once, in the scan's original order; and once no
qualifying record remains, the very next fetch clears the current
snapshot and eof() becomes true. -/
theorem cursor_iteration_spec (posns : List ScanRec) (m : Option (Nat → Bool))
    (fuel : Nat) (hfuel : posns.length < fuel) :
    collectFuel fuel (initCursor posns m) =
      .ok ((dedupFilter m posns []).map ScanRec.doc) ∧
    (∀ c : Cursor, c.yields = [] →
      dedupFilter c.matcher c.positions c.seen = [] →
      ∃ c2, findNext c = .ok c2 ∧ c2.current = none ∧
        eofStep c2 = .ok (true, c2)) := by
  constructor
  · exact (collect_char m fuel posns []).1 hfuel
  · intro c hy hd
    have hc : c = ⟨c.positions, c.matcher, [], c.seen, c.current, c.interrupted⟩ := by
      rw [← hy]
    rw [hc]
    have hfn := (findNext_char c.matcher c.interrupted c.positions c.seen
      c.current).1 hd
    refine ⟨⟨[], c.matcher, [], c.seen, none, c.interrupted⟩, hfn, rfl, ?_⟩
    have hfn2 := findNext_eq_nil
      (⟨[], c.matcher, [], c.seen, none, c.interrupted⟩ : Cursor) rfl
    simp [eofStep, hfn2]

theorem findNext_yield_fail (c : Cursor) (r : ScanRec) (rest : List ScanRec)
    (ys : List Bool) (hpos : c.positions = r :: rest)
    (hy : c.yields = false :: ys) :
    findNext c = .error .cursorInvalidated := by
  have hadv : advanceAndYield c = .error .cursorInvalidated := by
    simp [advanceAndYield, hy]
  by_cases hc : currentMatches c r = true ∧ r.rid ∉ c.seen
  · rw [findNext_cons_hit c r rest hpos hc]
    simp [advanceAndYield, hy]
  · exact findNext_cons_skip_err c r rest _ hpos hc hadv

/-- C4: if the physical scan's next yield reports failed reacquisition,
the next advance() raises the CursorInvalidated operational error, and
so does any other fetch-triggering call (eof or getCurrent when no
document is current); none of them returns a silent empty result or
transitions to end-of-stream. -/
theorem cursor_invalidated_on_failed_yield (c : Cursor) (ys : List Bool)
    (hI : c.interrupted = false) (hy : c.yields = false :: ys)
    (hP : c.positions ≠ []) :
    advanceStep c = .error .cursorInvalidated ∧
    (c.current = none →
      eofStep c = .error .cursorInvalidated ∧
      getCurrentStep c = .error .cursorInvalidated) := by
  rcases hpos : c.positions with _ | ⟨r, rest⟩
  · exact absurd hpos hP
  · have hfn := findNext_yield_fail c r rest ys hpos hy
    constructor
    · rcases hcur : c.current with _ | d
      · simp [advanceStep, checkInterrupts, hI, hcur, hfn]
      · simp [advanceStep, checkInterrupts, hI, hcur, hfn]
    · intro hcur
      constructor
      · simp [eofStep, hcur, hfn]
      · simp [getCurrentStep, hcur, hfn]

/-- C6: if the cooperative interruption flag is set when advance() is
called, advance() fails with Interrupted before performing any fetch:
the theorem holds for every cursor state, including ones whose pending
yield outcome would otherwise raise CursorInvalidated, so no scan
position is visited and no state is produced by the call. -/
theorem advance_interrupt_first (c : Cursor) (h : c.interrupted = true) :
    advanceStep c = .error .interrupted := by
  simp [advanceStep, checkInterrupts, h]


/-- Witness for C1 at the specification example: records R1..R6 with
R2's position revisited once, residual predicate "document is even";
the surfaced stream is exactly [2, 4, 6]. -/
theorem cursor_iteration_spec_witness :
    collectFuel 8 (initCursor
        (⟨1, 1⟩ :: ⟨2, 2⟩ :: ⟨3, 3⟩ :: ⟨4, 4⟩ :: ⟨2, 2⟩ :: ⟨5, 5⟩ :: ⟨6, 6⟩ :: [])
        (some (fun d => d % 2 == 0))) =
      .ok (2 :: 4 :: 6 :: []) := by
  have h := (cursor_iteration_spec
    (⟨1, 1⟩ :: ⟨2, 2⟩ :: ⟨3, 3⟩ :: ⟨4, 4⟩ :: ⟨2, 2⟩ :: ⟨5, 5⟩ :: ⟨6, 6⟩ :: [])
    (some (fun d => d % 2 == 0)) 8 (by decide)).1
  rw [h]
  rfl

/-- Witness for C4 at a concrete cursor whose next yield fails. -/
theorem cursor_invalidated_on_failed_yield_witness :
    advanceStep ⟨⟨1, 1⟩ :: [], none, false :: [], [], none, false⟩ =
        .error .cursorInvalidated ∧
    ((⟨⟨1, 1⟩ :: [], none, false :: [], [], none, false⟩ : Cursor).current = none →
      eofStep ⟨⟨1, 1⟩ :: [], none, false :: [], [], none, false⟩ =
          .error .cursorInvalidated ∧
      getCurrentStep ⟨⟨1, 1⟩ :: [], none, false :: [], [], none, false⟩ =
          .error .cursorInvalidated) :=
  cursor_invalidated_on_failed_yield _ [] rfl rfl (by simp)

/-- Witness for C6 at a concrete interrupted cursor whose next yield
would fail: the interruption wins. -/
theorem advance_interrupt_first_witness :
    advanceStep ⟨⟨1, 1⟩ :: [], none, false :: [], [], none, true⟩ =
      .error .interrupted :=
  advance_interrupt_first _ rfl

/-- C2: for every input stage list, the planner extracts a representable
leading filter and removes it from the front; if the new first stage is
sort-capable it attempts acquisition with both the filter (or the
unconstrained filter) and the sort key, removing the sort stage from the
front exactly when that acquisition succeeds; and when no sorted scan
was fused, it acquires a scan using only the filter. Stated as equality
with the specification-side algorithm of spec section 4.5 steps 2-4,
together with the exact sequence of acquisition attempts. -/
theorem fusion_planner_spec (acquire : Option Nat → Option Nat → Bool)
    (stages : List Stage) :
    ((prepareCursorSource acquire stages).query,
      (prepareCursorSource acquire stages).sortFused,
      (prepareCursorSource acquire stages).remaining) =
        specFusion acquire stages ∧
    (prepareCursorSource acquire stages).attempts =
      specAttempts acquire stages := by
  rcases stages with _ | ⟨s, rest⟩
  · simp [prepareCursorSource, specFusion, specAttempts, specFusionFilter,
      getInitialQuery]
  · cases s with
    | matchStage q =>
        rcases rest with _ | ⟨s2, rest2⟩
        · simp [prepareCursorSource, specFusion, specAttempts, specFusionFilter,
            getInitialQuery]
        · cases s2 with
          | matchStage q2 =>
              simp [prepareCursorSource, specFusion, specAttempts,
                specFusionFilter, getInitialQuery]
          | sortStage k =>
              by_cases ha : acquire (some q) (some k) <;>
                simp [prepareCursorSource, specFusion, specAttempts,
                  specFusionFilter, getInitialQuery, ha]
          | otherStage t =>
              simp [prepareCursorSource, specFusion, specAttempts,
                specFusionFilter, getInitialQuery]
    | sortStage k =>
        by_cases ha : acquire none (some k) <;>
          simp [prepareCursorSource, specFusion, specAttempts, specFusionFilter,
            getInitialQuery, ha]
    | otherStage t =>
        simp [prepareCursorSource, specFusion, specAttempts, specFusionFilter,
          getInitialQuery]

/-- C5: planning only ever removes stages from the literal front of the
list (the remainder is a drop of the input, so the relative order of the
stages not removed is unchanged), and a failed sorted-scan fusion
attempt leaves the stage list exactly as it was after filter
extraction. -/
theorem fusion_frame (acquire : Option Nat → Option Nat → Bool)
    (stages : List Stage) :
    (∃ n, (prepareCursorSource acquire stages).remaining = stages.drop n) ∧
    (∀ q k rest1, stages = .matchStage q :: .sortStage k :: rest1 →
      acquire (some q) (some k) = false →
      (prepareCursorSource acquire stages).remaining = .sortStage k :: rest1) ∧
    (∀ k rest1, stages = .sortStage k :: rest1 →
      acquire none (some k) = false →
      (prepareCursorSource acquire stages).remaining = .sortStage k :: rest1) := by
  refine ⟨?_, ?_, ?_⟩
  · rcases stages with _ | ⟨s, rest⟩
    · exact ⟨0, by simp [prepareCursorSource, getInitialQuery]⟩
    · cases s with
      | matchStage q =>
          rcases rest with _ | ⟨s2, rest2⟩
          · exact ⟨1, by simp [prepareCursorSource, getInitialQuery]⟩
          · cases s2 with
            | matchStage q2 =>
                exact ⟨1, by simp [prepareCursorSource, getInitialQuery]⟩
            | sortStage k =>
                by_cases ha : acquire (some q) (some k)
                · exact ⟨2, by simp [prepareCursorSource, getInitialQuery, ha]⟩
                · exact ⟨1, by simp [prepareCursorSource, getInitialQuery, ha]⟩
            | otherStage t =>
                exact ⟨1, by simp [prepareCursorSource, getInitialQuery]⟩
      | sortStage k =>
          by_cases ha : acquire none (some k)
          · exact ⟨1, by simp [prepareCursorSource, getInitialQuery, ha]⟩
          · exact ⟨0, by simp [prepareCursorSource, getInitialQuery, ha]⟩
      | otherStage t =>
          exact ⟨0, by simp [prepareCursorSource, getInitialQuery]⟩
  · rintro q k rest1 rfl ha
    simp [prepareCursorSource, getInitialQuery, ha]
  · rintro k rest1 rfl ha
    simp [prepareCursorSource, getInitialQuery, ha]

/-- Witness for C5: with an acquisition oracle that always fails, the
failed sorted attempt leaves [sort 7, other 9] in place after the
filter was extracted. -/
theorem fusion_frame_witness :
    (prepareCursorSource (fun _ _ => false)
        (.matchStage 5 :: .sortStage 7 :: .otherStage 9 :: [])).remaining =
      .sortStage 7 :: .otherStage 9 :: [] :=
  (fusion_frame (fun _ _ => false) _).2.1 5 7 (.otherStage 9 :: []) rfl rfl
